import Mathlib

/-!
Verification of the resolution-and-extraction pipeline of `webscrapper.py`.

The Python source is shallowly embedded: pure string manipulation is
translated to executable Lean functions over `List Char` / `String`
(`String` in Lean is a structure wrapping `List Char`, so all definitions
below evaluate by kernel reduction).  Network fetches, the DuckDuckGo
search collaborator, and the BeautifulSoup HTML parser are external
effects or libraries, not code of this repository; they are modelled as
explicit parameters (an `Except` value for each fetch outcome, a `Soup`
record for the parsed document, a list of `SearchResult` for the search
collaborator), exactly mirroring how the Python code consumes them.

Regular-expression matching is embedded directly: each of the four
regexes in the source (`re.findall` for e-mail and phone candidates,
`re.sub` for script/style stripping, and `re.match` for strict e-mail
validation) is deterministic on its pattern — every quantifier boundary
in these patterns is forced by disjoint character classes — so each is
translated to an explicit scanner whose behaviour coincides with the
backtracking engine.  ASCII fragments are used for `\s`, `\d` and
`str.lower` (the candidate strings produced by the regexes are built
from ASCII character classes).
-/

namespace WebScrapper

/-! ### Character classes and small string utilities -/

/-- ASCII uppercase/lowercase pairs, used to embed the ASCII fragment of
Python `str.lower()`. -/
def upperToLower : List (Char × Char) :=
  [('A', 'a'), ('B', 'b'), ('C', 'c'), ('D', 'd'), ('E', 'e'), ('F', 'f'),
   ('G', 'g'), ('H', 'h'), ('I', 'i'), ('J', 'j'), ('K', 'k'), ('L', 'l'),
   ('M', 'm'), ('N', 'n'), ('O', 'o'), ('P', 'p'), ('Q', 'q'), ('R', 'r'),
   ('S', 's'), ('T', 't'), ('U', 'u'), ('V', 'v'), ('W', 'w'), ('X', 'x'),
   ('Y', 'y'), ('Z', 'z')]

/-- The ASCII uppercase letters. -/
def asciiUppercase : List Char := upperToLower.map Prod.fst

/-- ASCII fragment of Python `str.lower()`, per character. -/
def lowerChar (c : Char) : Char :=
  match upperToLower.find? (fun p => p.1 == c) with
  | some p => p.2
  | none => c

/-- ASCII fragment of Python `str.lower()`. -/
def lowerStr (s : String) : String := ⟨s.data.map lowerChar⟩

/-- Predicate `startsWithList cs pat`: `cs` begins with `pat` (case-sensitive). -/
def startsWithList : List Char → List Char → Bool
  | _, [] => true
  | [], _ :: _ => false
  | c :: cs, p :: ps => c = p && startsWithList cs ps

/-- Python `s.startswith(p)`. -/
def startsWithStr (s p : String) : Bool := startsWithList s.data p.data

/-- Python `s.endswith(p)`. -/
def endsWithStr (s p : String) : Bool := startsWithList s.data.reverse p.data.reverse

/-- Predicate `containsSub needle hay`: `needle` occurs as a contiguous substring of
`hay`; embeds Python `needle in hay`. -/
def containsSub (needle : List Char) : List Char → Bool
  | [] => startsWithList [] needle
  | c :: t => startsWithList (c :: t) needle || containsSub needle t

/-- Python `c in s` for a single character `c`. -/
def containsChar (s : String) (c : Char) : Bool := s.data.any (fun d => d == c)

/-- First-occurrence deduplication with an accumulator of already-seen
elements; `dedupSeen [] l` embeds Python `list(dict.fromkeys(l))`. -/
def dedupSeen {α : Type} [DecidableEq α] (seen : List α) : List α → List α
  | [] => []
  | x :: xs => if x ∈ seen then dedupSeen seen xs else x :: dedupSeen (x :: seen) xs

/-- Python `list(dict.fromkeys(l))`: deduplicate keeping first occurrences.
Also used to embed `list(set(l))`, whose iteration order Python leaves
unspecified; only order-insensitive facts are stated about those uses. -/
def dedupFirst {α : Type} [DecidableEq α] (l : List α) : List α := dedupSeen [] l

/-! ### Category classifier (`CATEGORY_KEYWORDS`, `extract_category`) -/

/-- The fixed ordered keyword taxonomy from the top of `webscrapper.py`.
Python dict iteration order is insertion order, so an ordered list of
pairs is a faithful embedding.  Note the source spells the fragrance
label `"Fragnances"`. -/
def CATEGORY_KEYWORDS : List (String × List String) :=
  [("Skincare", ["skincare", "skin care", "face cream", "moisturizer", "serum",
                 "lotion", "cleanser"]),
   ("Hair Care", ["shampoo", "conditioner", "hair oil", "haircare", "hair mask"]),
   ("Footwear", ["shoes", "sneakers", "sandals", "boots", "footwear"]),
   ("Fragnances", ["perfume", "fragrance", "cologne", "deodorant", "scent",
                   "aroma", "incense", "essential oil", "diffuser", "attar",
                   "room spray", "aromatherapy"]),
   ("Personal Care", ["personal care", "toothpaste", "soap", "body wash", "hygiene"]),
   ("Clothing", ["clothing", "apparel", "t-shirt", "jeans", "dress", "fashion", "wear"]),
   ("Electronics", ["laptop", "mobile", "electronics", "gadgets", "headphones",
                    "smartphone"]),
   ("Jewelry", ["jewelry", "ring", "necklace", "bracelet", "gold", "silver"]),
   ("Furniture", ["furniture", "sofa", "table", "chair", "interior"]),
   ("Food & Beverages", ["food", "beverage", "snacks", "drink", "restaurant", "cafe"]),
   ("Other", [])]

/-- Python `kw in text` on strings. -/
def kwInText (kw text : String) : Bool := containsSub kw.data text.data

/-- Abstraction of the BeautifulSoup document handed to `extract_category`.
BeautifulSoup itself is an external library; only the three probes the
code performs are modelled.  Each field is `none` when no such tag exists;
`some none` when the tag exists but lacks the attribute (or, for `title`,
lacks a string); `some (some s)` when the attribute/string is `s`. -/
structure Soup where
  metaDesc : Option (Option String)
  ogDesc : Option (Option String)
  title : Option (Option String)
deriving DecidableEq

/-- Python `a or b` on two `find` results: a found tag is always truthy. -/
def pyOrTag (a b : Option (Option String)) : Option (Option String) :=
  match a with
  | some t => some t
  | none => b

/-- The `elif soup.title and soup.title.string:` branch: the title tag must
exist and its string must be non-`None` and non-empty. -/
def titleText (soup : Soup) : String :=
  match soup.title with
  | some (some t) => if t.isEmpty then "" else lowerStr t
  | _ => ""

/-- The text-selection part of `extract_category`:
`meta_desc = soup.find("meta", name="description") or soup.find("meta", property="og:description")`,
then `if meta_desc and meta_desc.get("content"): text = content.lower() elif ... title`.
An empty `content` attribute is falsy in Python. -/
def category_source_text (soup : Soup) : String :=
  match pyOrTag soup.metaDesc soup.ogDesc with
  | some (some c) => if c.isEmpty then titleText soup else lowerStr c
  | _ => titleText soup

/-- The keyword-matching part of `extract_category`: first category in
taxonomy order with a keyword occurring in the text, else `"Other"`. -/
def category_of_text (text : String) : String :=
  match CATEGORY_KEYWORDS.find? (fun p => p.2.any (fun kw => kwInText kw text)) with
  | some p => p.1
  | none => "Other"

/-- Function `extract_category` from `webscrapper.py`. -/
def extract_category (soup : Soup) : String :=
  category_of_text (category_source_text soup)

/-! ### Contact extractor: e-mail cleaning (`clean_emails`) -/

/-- The character class `[a-zA-Z0-9_.+-]` (local part of both e-mail
regexes in the source). -/
def isLocalPartChar (c : Char) : Bool :=
  c.isAlpha || c.isDigit || c = '_' || c = '.' || c = '+' || c = '-'

/-- The character class `[a-zA-Z0-9-]` (domain label of both e-mail
regexes). -/
def isDomainChar (c : Char) : Bool := c.isAlpha || c.isDigit || c = '-'

/-- The character class `[a-zA-Z0-9-.]` (tail of the candidate regex). -/
def isDomainTailChar (c : Char) : Bool := c.isAlpha || c.isDigit || c = '-' || c = '.'

/-- Anchored matching of `[a-zA-Z0-9_.+-]+@[a-zA-Z0-9-]+\.[a-zA-Z]{2,}`
against the whole input.  The pattern is deterministic: each `+` run is
bounded by a character outside its class, so greedy matching never
backtracks. -/
def strictCore (cs : List Char) : Bool :=
  match cs.dropWhile isLocalPartChar with
  | '@' :: r1 =>
    if (cs.takeWhile isLocalPartChar).isEmpty then false
    else
      match r1.dropWhile isDomainChar with
      | '.' :: tld =>
        if (r1.takeWhile isDomainChar).isEmpty then false
        else decide (2 ≤ tld.length) && tld.all Char.isAlpha
      | _ => false
  | _ => false

/-- Python `re.match(r"^[a-zA-Z0-9_.+-]+@[a-zA-Z0-9-]+\.[a-zA-Z]{2,}$", s)`:
`$` also matches just before a single trailing newline. -/
def strictEmailMatch (s : String) : Bool :=
  strictCore s.data ||
    (match s.data.getLast? with
     | some c => c = '\n' && strictCore s.data.dropLast
     | none => false)

/-- The static-asset extensions rejected by `clean_emails`. -/
def assetExts : List String := [".js", ".css", ".png", ".jpg", ".jpeg", ".gif", ".svg"]

/-- The filtering loop of `clean_emails`: lower-case each candidate, skip
asset-extension endings, skip candidates without `@`, keep those passing
the strict regex. -/
def validEmailsOf : List String → List String
  | [] => []
  | e :: es =>
    let email := lowerStr e
    if assetExts.any (fun ext => endsWithStr email ext) then validEmailsOf es
    else if !containsChar email '@' then validEmailsOf es
    else if strictEmailMatch email then email :: validEmailsOf es
    else validEmailsOf es

/-- Function `clean_emails` from `webscrapper.py`; the final `list(set(...))` is
modelled as first-occurrence deduplication (Python set order is
unspecified, and only order-insensitive facts are claimed for e-mails). -/
def clean_emails (emails : List String) : List String :=
  dedupFirst (validEmailsOf emails)

/-! ### Contact extractor: phone cleaning (`clean_phones`) -/

/-- Python `re.sub(r"\D", "", p)` (ASCII fragment of `\d`). -/
def digitsOnly (s : String) : String := ⟨s.data.filter Char.isDigit⟩

/-- Python `digits[0] in "6789"` guarded by non-emptiness. -/
def firstDigitOk (s : String) : Bool :=
  match s.data with
  | c :: _ => c = '6' || c = '7' || c = '8' || c = '9'
  | [] => false

/-- The filtering loop of `clean_phones`: strip non-digits, keep exactly
ten digits starting with 6–9. -/
def validPhonesOf : List String → List String
  | [] => []
  | p :: ps =>
    let digits := digitsOnly p
    if digits.length = 10 ∧ firstDigitOk digits = true then digits :: validPhonesOf ps
    else validPhonesOf ps

/-- Function `clean_phones` from `webscrapper.py`:
`list(dict.fromkeys(valid_phones))[:max_count]`. -/
def clean_phones (phones : List String) (max_count : Nat) : List String :=
  (dedupFirst (validPhonesOf phones)).take max_count

/-! ### Contact extractor: the two `re.findall` scanners

`re.findall` scans left to right, attempts an anchored match at each
position, and on success continues after the match (non-overlapping).
Both patterns are deterministic (see `strictCore`), so each attempt is a
single greedy scan returning the matched length. -/

/-- Anchored match length of the e-mail candidate pattern
`[a-zA-Z0-9_.+-]+@[a-zA-Z0-9-]+\.[a-zA-Z0-9-.]+`. -/
def matchEmailLen (cs : List Char) : Option Nat :=
  let loc := cs.takeWhile isLocalPartChar
  if loc.isEmpty then none
  else
    match cs.drop loc.length with
    | '@' :: r1 =>
      let dom := r1.takeWhile isDomainChar
      if dom.isEmpty then none
      else
        match r1.drop dom.length with
        | '.' :: r2 =>
          let tl := r2.takeWhile isDomainTailChar
          if tl.isEmpty then none
          else some (loc.length + 1 + dom.length + 1 + tl.length)
        | _ => none
    | _ => none

/-- The character class `[\s-]` (ASCII fragment of `\s`). -/
def isSpaceHyphen (c : Char) : Bool :=
  c = ' ' || c = '\t' || c = '\n' || c = '\r' || c = '\x0b' || c = '\x0c' || c = '-'

/-- Pattern `(?:[\s-]*\d){n}`: `n` repetitions of optional separators followed by a
digit; returns the consumed length. -/
def matchPhoneRep : Nat → List Char → Option Nat
  | 0, _ => some 0
  | n + 1, cs =>
    let sp := (cs.takeWhile isSpaceHyphen).length
    match cs.drop sp with
    | d :: rest =>
      if d.isDigit then (matchPhoneRep n rest).map (fun k => sp + 1 + k) else none
    | [] => none

/-- Pattern `[6-9](?:[\s-]*\d){9}` at the current position. -/
def matchPhoneCore (cs : List Char) : Option Nat :=
  match cs with
  | d :: rest =>
    if d = '6' || d = '7' || d = '8' || d = '9' then
      (matchPhoneRep 9 rest).map (fun k => 1 + k)
    else none
  | [] => none

/-- Anchored match length of `(?:\+91[\s-]*)?[6-9](?:[\s-]*\d){9}`.  When
the input starts with `+91` the optional group is taken greedily; if the
remainder then fails, the backtracked attempt without the group needs
`[6-9]` at the `+` and fails too, so the whole attempt fails — matching
the backtracking engine. -/
def matchPhoneLen (cs : List Char) : Option Nat :=
  match cs with
  | '+' :: '9' :: '1' :: r =>
    let sp := (r.takeWhile isSpaceHyphen).length
    (matchPhoneCore (r.drop sp)).map (fun k => 3 + sp + k)
  | _ => matchPhoneCore cs

/-- The `re.findall` driver: the fuel starts at the input length; every
iteration consumes at least one character (both matchers return positive
lengths), so the fuel never runs out on the initial call. -/
def findallGo (matchLen : List Char → Option Nat) : Nat → List Char → List (List Char)
  | 0, _ => []
  | _ + 1, [] => []
  | fuel + 1, c :: cs =>
    match matchLen (c :: cs) with
    | some n => (c :: cs).take n :: findallGo matchLen fuel ((c :: cs).drop n)
    | none => findallGo matchLen fuel cs

/-- Embeds `re.findall(r"[a-zA-Z0-9_.+-]+@[a-zA-Z0-9-]+\.[a-zA-Z0-9-.]+", html)`. -/
def findallEmails (cs : List Char) : List (List Char) :=
  findallGo matchEmailLen cs.length cs

/-- Embeds `re.findall(r"(?:\+91[\s-]*)?[6-9](?:[\s-]*\d){9}", html)`. -/
def findallPhones (cs : List Char) : List (List Char) :=
  findallGo matchPhoneLen cs.length cs

/-! ### Contact extractor: script/style stripping and `extract_contact_info` -/

/-- Predicate `startsWithLower cs pat`: `cs` begins with `pat` case-insensitively
(`pat` is given lower-case); embeds the `re.IGNORECASE` comparisons. -/
def startsWithLower : List Char → List Char → Bool
  | _, [] => true
  | [], _ :: _ => false
  | c :: cs, p :: ps => lowerChar c = p && startsWithLower cs ps

/-- Length up to and including the first (case-insensitive) occurrence of
`close`; embeds the lazy `.*?` followed by a literal. -/
def findCloseLen (close : List Char) : List Char → Option Nat
  | [] => none
  | c :: cs =>
    if startsWithLower (c :: cs) close then some close.length
    else (findCloseLen close cs).map (fun n => n + 1)

/-- One tag alternative of `<(script|style).*?>.*?</\1>`: after `<` and the
tag word, the lazy `.*?>` runs to the first `>`, then the lazy
`.*?</\1>` runs to the first matching close tag.  If no close tag occurs
after the first `>`, none occurs after any later `>` either, so the
first-occurrence choices agree with the backtracking engine. -/
def matchTagBlock (rest : List Char) (tag : List Char) : Option Nat :=
  if startsWithLower rest tag then
    let r1 := rest.drop tag.length
    match findCloseLen ['>'] r1 with
    | some n1 =>
      match findCloseLen ('<' :: '/' :: (tag ++ ['>'])) (r1.drop n1) with
      | some n2 => some (1 + tag.length + n1 + n2)
      | none => none
    | none => none
  else none

/-- Anchored match length of `<(script|style).*?>.*?</\1>`
(`re.DOTALL | re.IGNORECASE`). -/
def matchScriptStyleLen (cs : List Char) : Option Nat :=
  match cs with
  | '<' :: rest =>
    match matchTagBlock rest ['s', 'c', 'r', 'i', 'p', 't'] with
    | some n => some n
    | none => matchTagBlock rest ['s', 't', 'y', 'l', 'e']
  | _ => none

/-- The `re.sub` driver: delete every match, keep other characters.  As in
`findallGo`, the fuel equals the input length and every iteration
consumes at least one character. -/
def stripGo : Nat → List Char → List Char
  | 0, cs => cs
  | _ + 1, [] => []
  | fuel + 1, c :: cs =>
    match matchScriptStyleLen (c :: cs) with
    | some n => stripGo fuel ((c :: cs).drop n)
    | none => c :: stripGo fuel cs

/-- Embeds `re.sub(r'<(script|style).*?>.*?</\1>', '', html, flags=DOTALL|IGNORECASE)`. -/
def stripScriptStyle (html : String) : String := ⟨stripGo html.data.length html.data⟩

/-- The phone-candidate list `re.findall(...)` inside
`extract_contact_info`, as strings. -/
def phoneCandidates (html : String) : List String :=
  (findallPhones (stripScriptStyle html).data).map (fun l => String.mk l)

/-- The e-mail-candidate list `re.findall(...)` inside
`extract_contact_info`, as strings. -/
def emailCandidates (html : String) : List String :=
  (findallEmails (stripScriptStyle html).data).map (fun l => String.mk l)

/-- Function `extract_contact_info` from `webscrapper.py`. -/
def extract_contact_info (html : String) (max_phones : Nat) : List String × List String :=
  (clean_emails (emailCandidates html), clean_phones (phoneCandidates html) max_phones)

/-! ### Page resolver (`scrape_contact_page`, `scrape_website`)

`fetch_html` performs network IO; each fetch outcome is modelled as an
`Except String String` parameter (`ok` body on a 2xx response, `error`
message when the request raises or `raise_for_status` fires).  `get_soup`
delegates to BeautifulSoup and never raises (it has an internal parser
fallback); the parsed document is passed as a `Soup` parameter. -/

/-- The result dict built by `scrape_website`; fields `website`, `emails`,
`phoneNumbers`, `category` embed the keys `"Website"`, `"Emails"`,
`"Phone Numbers"`, `"Category"`. -/
structure ResultRecord where
  website : String
  emails : String
  phoneNumbers : String
  category : String
deriving DecidableEq

/-- Function `scrape_contact_page` from `webscrapper.py`: on any failure of the
`/contact` fetch the `except:` clause returns `([], [])`. -/
def scrape_contact_page (contactFetch : Except String String) (max_phones : Nat) :
    List String × List String :=
  match contactFetch with
  | Except.ok html => extract_contact_info html max_phones
  | Except.error _ => ([], [])

/-- Python `xs or ys` on lists (an empty list is falsy). -/
def pyOrList (xs ys : List String) : List String := if xs.isEmpty then ys else xs

/-- Function `scrape_website` from `webscrapper.py`.  `primaryFetch` is the outcome
of `fetch_html(url)`, `soup` the parse of its body, `contactFetch` the
outcome of `fetch_html(url + "/contact", timeout=8)` (consulted only when
the primary page yields no e-mails). -/
def scrape_website (url : String) (primaryFetch : Except String String) (soup : Soup)
    (contactFetch : Except String String) (max_phones : Nat) : ResultRecord :=
  match primaryFetch with
  | Except.error e => ⟨url, "", "", "Failed to fetch: " ++ e⟩
  | Except.ok html =>
    let ep := extract_contact_info html max_phones
    let merged :=
      if ep.1.isEmpty then
        let cp := scrape_contact_page contactFetch max_phones
        (pyOrList ep.1 cp.1, pyOrList ep.2 cp.2)
      else ep
    ⟨url, String.intercalate ", " merged.1, String.intercalate ", " merged.2,
      extract_category soup⟩

/-! ### Website resolver (`get_website_from_search`) -/

/-- One result object of the DuckDuckGo collaborator: `r.get("href")` and
`r.get("link")`. -/
structure SearchResult where
  href : Option String
  link : Option String
deriving DecidableEq

/-- Python `r.get("href") or r.get("link")` (`None` and `""` are falsy). -/
def pyOrStr (a b : Option String) : Option String :=
  match a with
  | some s => if s.isEmpty then b else some s
  | none => b

/-- The `if href: return href` loop body over the result stream. -/
def searchLoop : List SearchResult → Option String
  | [] => none
  | r :: rs =>
    match pyOrStr r.href r.link with
    | some h => if h.isEmpty then searchLoop rs else some h
    | none => searchLoop rs

/-- The truthy `href`-or-`link` candidate of one result. -/
def truthyLink (r : SearchResult) : Option String :=
  match pyOrStr r.href r.link with
  | some h => if h.isEmpty then none else some h
  | none => none

/-- Function `get_website_from_search` from `webscrapper.py`: the collaborator
outcome is an `Except` (the `except Exception: pass` clause yields the
`None` marker, as does an empty or linkless result stream). -/
def get_website_from_search (searchOutcome : Except String (List SearchResult)) :
    Option String :=
  match searchOutcome with
  | Except.error _ => none
  | Except.ok rs => searchLoop rs

/-! ### Pipeline driver: URL normalization (`normalize`) -/

/-- Function `normalize` from the manual-URL branch of `main`:
`u if u.startswith(("http://", "https://")) else "https://" + u`. -/
def normalize (u : String) : String :=
  if startsWithStr u "http://" || startsWithStr u "https://" then u else "https://" ++ u

/-! ### Specification-side definitions

These definitions follow the words of individual claims (not the source);
each is compared against the embedded code in the corresponding
refinement theorem or counterexample. -/

/-- The closed taxonomy exactly as the claim spells it (note `Fragrances`,
which the source spells `Fragnances`). -/
def claimedTaxonomy : List String :=
  ["Skincare", "Hair Care", "Footwear", "Fragrances", "Personal Care", "Clothing",
   "Electronics", "Jewelry", "Furniture", "Food & Beverages", "Other"]

/-- A tag probe carrying usable (non-empty) content. -/
def usableContent : Option (Option String) → Option String
  | some (some c) => if c.isEmpty then none else some c
  | _ => none

/-- Source-text priority as the claim states it: meta description content
if present, else og:description content if present, else title text,
else empty — in particular a contentless meta description tag falls back
to og:description. -/
def claimSourceText (soup : Soup) : String :=
  match usableContent soup.metaDesc with
  | some c => lowerStr c
  | none =>
    match usableContent soup.ogDesc with
    | some c => lowerStr c
    | none =>
      match usableContent soup.title with
      | some c => lowerStr c
      | none => ""

/-- Source-text priority as amended to the code's behaviour: the probed
tag is the meta description if that tag exists at all, else
og:description; only a probed tag with non-empty content supplies the
text, and otherwise (including a contentless meta description tag) the
classifier falls back directly to the title. -/
def amendedSourceText (soup : Soup) : String :=
  match soup.metaDesc with
  | some tagContent =>
    match usableContent (some tagContent) with
    | some c => lowerStr c
    | none => titleText soup
  | none =>
    match usableContent soup.ogDesc with
    | some c => lowerStr c
    | none => titleText soup

/-- The character class of a URI scheme after its first letter
(RFC 3986: `ALPHA *( ALPHA / DIGIT / "+" / "-" / "." )`). -/
def isSchemeChar (c : Char) : Bool := c.isAlpha || c.isDigit || c = '+' || c = '-' || c = '.'

/-- Modelled from the claim's words: the input "has a scheme present",
i.e. starts with an RFC 3986 scheme followed by `:`. -/
def hasScheme (u : String) : Bool :=
  match u.data.takeWhile isSchemeChar, u.data.dropWhile isSchemeChar with
  | c :: _, ':' :: _ => c.isAlpha
  | _, _ => false

/-! ### Helper lemmas: first-occurrence deduplication -/

theorem mem_dedupSeen {α : Type} [DecidableEq α] (seen l : List α) (a : α) :
    a ∈ dedupSeen seen l ↔ a ∈ l ∧ a ∉ seen := by
  induction l generalizing seen with
  | nil => simp [dedupSeen]
  | cons x xs ih =>
    simp only [dedupSeen]
    by_cases hx : x ∈ seen
    · rw [if_pos hx, ih, List.mem_cons]
      constructor
      · rintro ⟨h1, h2⟩
        exact ⟨Or.inr h1, h2⟩
      · rintro ⟨h1 | h1, h2⟩
        · exact absurd (h1 ▸ hx) h2
        · exact ⟨h1, h2⟩
    · rw [if_neg hx]
      simp only [List.mem_cons, ih]
      constructor
      · rintro (rfl | ⟨h1, h2⟩)
        · exact ⟨Or.inl rfl, hx⟩
        · exact ⟨Or.inr h1, fun hs => h2 (Or.inr hs)⟩
      · rintro ⟨hax | h1, h2⟩
        · exact Or.inl hax
        · by_cases hax : a = x
          · exact Or.inl hax
          · exact Or.inr ⟨h1, fun hor => hor.elim hax h2⟩

theorem nodup_dedupSeen {α : Type} [DecidableEq α] (seen l : List α) :
    (dedupSeen seen l).Nodup := by
  induction l generalizing seen with
  | nil => simp [dedupSeen]
  | cons x xs ih =>
    simp only [dedupSeen]
    by_cases hx : x ∈ seen
    · rw [if_pos hx]; exact ih seen
    · rw [if_neg hx]
      refine List.nodup_cons.mpr ⟨?_, ih (x :: seen)⟩
      intro hmem
      exact ((mem_dedupSeen _ _ _).mp hmem).2 (List.mem_cons_self x seen)

theorem dedupSeen_sublist {α : Type} [DecidableEq α] (seen l : List α) :
    (dedupSeen seen l).Sublist l := by
  induction l generalizing seen with
  | nil => simp [dedupSeen]
  | cons x xs ih =>
    simp only [dedupSeen]
    by_cases hx : x ∈ seen
    · rw [if_pos hx]; exact (ih seen).cons x
    · rw [if_neg hx]; exact (ih (x :: seen)).cons₂ x

theorem pairwise_indexOf_dedupSeen {α : Type} [DecidableEq α] (seen l : List α) :
    (dedupSeen seen l).Pairwise (fun a b => l.indexOf a < l.indexOf b) := by
  induction l generalizing seen with
  | nil => simp [dedupSeen]
  | cons x xs ih =>
    simp only [dedupSeen]
    by_cases hx : x ∈ seen
    · rw [if_pos hx]
      refine (ih seen).imp_of_mem ?_
      intro a b ha hb hlt
      rw [mem_dedupSeen] at ha hb
      have hax : x ≠ a := fun h => ha.2 (h ▸ hx)
      have hbx : x ≠ b := fun h => hb.2 (h ▸ hx)
      rw [List.indexOf_cons_ne _ hax, List.indexOf_cons_ne _ hbx]
      exact Nat.succ_lt_succ hlt
    · rw [if_neg hx]
      refine List.pairwise_cons.mpr ⟨?_, ?_⟩
      · intro b hb
        rw [mem_dedupSeen] at hb
        have hbx : x ≠ b := fun h => hb.2 (h ▸ List.mem_cons_self x seen)
        rw [List.indexOf_cons_self, List.indexOf_cons_ne _ hbx]
        exact Nat.succ_pos _
      · refine (ih (x :: seen)).imp_of_mem ?_
        intro a b ha hb hlt
        rw [mem_dedupSeen] at ha hb
        have hax : x ≠ a := fun h => ha.2 (h ▸ List.mem_cons_self x seen)
        have hbx : x ≠ b := fun h => hb.2 (h ▸ List.mem_cons_self x seen)
        rw [List.indexOf_cons_ne _ hax, List.indexOf_cons_ne _ hbx]
        exact Nat.succ_lt_succ hlt

theorem mem_dedupFirst {α : Type} [DecidableEq α] (l : List α) (a : α) :
    a ∈ dedupFirst l ↔ a ∈ l := by
  rw [dedupFirst, mem_dedupSeen]
  simp

/-! ### Helper lemma: `find?` returns the first index satisfying `p` -/

theorem find?_of_first {α : Type} (p : α → Bool) (l : List α) (i : Nat) (hi : i < l.length)
    (hp : p (l.get ⟨i, hi⟩) = true)
    (hmin : ∀ j (hj : j < i), p (l.get ⟨j, Nat.lt_trans hj hi⟩) = false) :
    l.find? p = some (l.get ⟨i, hi⟩) := by
  induction l generalizing i with
  | nil => exact absurd hi (Nat.not_lt_zero i)
  | cons x xs ih =>
    cases i with
    | zero => exact List.find?_cons_of_pos xs hp
    | succ n =>
      have h0 : p x = false := by simpa using hmin 0 (Nat.succ_pos n)
      rw [List.find?_cons_of_neg xs (by simp [h0])]
      have hn : n < xs.length := Nat.lt_of_succ_lt_succ hi
      have hpn : p (xs.get ⟨n, hn⟩) = true := by simpa using hp
      have := ih n hn hpn (fun j hj => by simpa using hmin (j + 1) (Nat.succ_lt_succ hj))
      rw [this]
      simp

/-! ### Helper lemmas: lower-casing -/

theorem lowerChar_not_upper (c : Char) : lowerChar c ∉ asciiUppercase := by
  rw [lowerChar]
  cases hf : upperToLower.find? (fun p => p.1 == c) with
  | none =>
    intro hmem
    rw [asciiUppercase, List.mem_map] at hmem
    obtain ⟨p, hp, hpc⟩ := hmem
    have := (List.find?_eq_none.mp hf) p hp
    simp [hpc] at this
  | some p =>
    have hp : p ∈ upperToLower := List.mem_of_find?_eq_some hf
    show p.2 ∉ asciiUppercase
    fin_cases hp <;> decide

theorem lowerStr_not_upper (s : String) (c : Char) (hc : c ∈ (lowerStr s).data) :
    c ∉ asciiUppercase := by
  rw [lowerStr] at hc
  rcases List.mem_map.mp hc with ⟨d, _, rfl⟩
  exact lowerChar_not_upper d

/-! ### Helper lemmas: the e-mail filtering loop -/

theorem mem_validEmailsOf (l : List String) (e : String) (he : e ∈ validEmailsOf l) :
    (∃ src, e = lowerStr src) ∧
      (∀ ext ∈ assetExts, endsWithStr e ext = false) ∧
      containsChar e '@' = true ∧ strictEmailMatch e = true := by
  induction l with
  | nil => cases he
  | cons x xs ih =>
    simp only [validEmailsOf] at he
    by_cases h1 : (assetExts.any (fun ext => endsWithStr (lowerStr x) ext)) = true
    · rw [if_pos h1] at he
      exact ih he
    · rw [if_neg h1] at he
      by_cases h2 : (!containsChar (lowerStr x) '@') = true
      · rw [if_pos h2] at he
        exact ih he
      · rw [if_neg h2] at he
        by_cases h3 : strictEmailMatch (lowerStr x) = true
        · rw [if_pos h3] at he
          rcases List.mem_cons.mp he with rfl | hmem
          · refine ⟨⟨x, rfl⟩, ?_, ?_, h3⟩
            · intro ext hext
              by_contra hend
              exact h1 (List.any_eq_true.mpr ⟨ext, hext, by simpa using hend⟩)
            · cases hb : containsChar (lowerStr x) '@'
              · exact absurd (by rw [hb]; rfl) h2
              · rfl
          · exact ih hmem
        · rw [if_neg h3] at he
          exact ih he

/-! ### Helper lemmas: the phone filtering loop -/

theorem mem_validPhonesOf (l : List String) (p : String) (hp : p ∈ validPhonesOf l) :
    p.length = 10 ∧ p.data.all Char.isDigit = true ∧ firstDigitOk p = true := by
  induction l with
  | nil => cases hp
  | cons x xs ih =>
    simp only [validPhonesOf] at hp
    by_cases h : (digitsOnly x).length = 10 ∧ firstDigitOk (digitsOnly x) = true
    · rw [if_pos h] at hp
      rcases List.mem_cons.mp hp with rfl | hmem
      · refine ⟨h.1, ?_, h.2⟩
        rw [List.all_eq_true]
        intro c hc
        exact (List.mem_filter.mp hc).2
      · exact ih hmem
    · rw [if_neg h] at hp
      exact ih hp

/-! ### Helper lemmas: shape of strings accepted by the strict e-mail regex -/

theorem strictCore_shape (cs : List Char) (h : strictCore cs = true) :
    ∃ loc dom tld, cs = loc ++ '@' :: (dom ++ '.' :: tld) ∧
      (∀ c ∈ loc, isLocalPartChar c = true) ∧
      (∀ c ∈ dom, isDomainChar c = true) ∧
      (∀ c ∈ tld, c.isAlpha = true) := by
  rw [strictCore] at h
  split at h
  case h_2 => exact absurd h (by simp)
  case h_1 r1 heq =>
    split at h
    case isTrue => exact absurd h (by simp)
    case isFalse =>
      split at h
      case h_2 => exact absurd h (by simp)
      case h_1 tld heq2 =>
        split at h
        case isTrue => exact absurd h (by simp)
        case isFalse =>
          have e1 : cs = cs.takeWhile isLocalPartChar ++ ('@' :: r1) := by
            conv_lhs => rw [← List.takeWhile_append_dropWhile isLocalPartChar cs, heq]
          have e2 : r1 = r1.takeWhile isDomainChar ++ ('.' :: tld) := by
            conv_lhs => rw [← List.takeWhile_append_dropWhile isDomainChar r1, heq2]
          refine ⟨cs.takeWhile isLocalPartChar, r1.takeWhile isDomainChar, tld,
            e1.trans (congrArg (fun l => cs.takeWhile isLocalPartChar ++ '@' :: l) e2),
            fun c hc => List.mem_takeWhile_imp hc,
            fun c hc => List.mem_takeWhile_imp hc, ?_⟩
          intro c hc
          have hall := (Bool.and_eq_true _ _).mp h
          exact List.all_eq_true.mp hall.2 c hc

theorem dropWhile_to_at (loc rest : List Char)
    (hloc : ∀ c ∈ loc, isLocalPartChar c = true) :
    (loc ++ '@' :: rest).dropWhile (fun c => !(c = '@')) = '@' :: rest := by
  induction loc with
  | nil => simp [List.dropWhile_cons]
  | cons c cs ih =>
    have hc : isLocalPartChar c = true := hloc c (List.mem_cons_self c cs)
    have hne : ¬c = '@' := by
      intro hcc
      rw [hcc] at hc
      exact absurd hc (by decide)
    rw [List.cons_append, List.dropWhile_cons, if_pos (by simp [hne])]
    exact ih (fun d hd => hloc d (List.mem_cons_of_mem c hd))

theorem count_dot_after_at (cs extra : List Char) (h : strictCore cs = true)
    (hextra : ∀ c ∈ extra, c ≠ '.') :
    (((cs ++ extra).dropWhile (fun c => !(c = '@'))).tail).count '.' = 1 := by
  obtain ⟨loc, dom, tld, hshape, hloc, hdom, htld⟩ := strictCore_shape cs h
  have e1 : cs ++ extra = loc ++ '@' :: (dom ++ '.' :: (tld ++ extra)) := by
    rw [hshape]
    simp [List.append_assoc]
  rw [e1, dropWhile_to_at loc _ hloc]
  show (dom ++ '.' :: (tld ++ extra)).count '.' = 1
  rw [List.count_append, List.count_cons_self, List.count_append]
  have hd : dom.count '.' = 0 := by
    rw [List.count_eq_zero]
    intro hmem
    exact absurd (hdom '.' hmem) (by decide)
  have ht : tld.count '.' = 0 := by
    rw [List.count_eq_zero]
    intro hmem
    exact absurd (htld '.' hmem) (by decide)
  have he : extra.count '.' = 0 := by
    rw [List.count_eq_zero]
    intro hmem
    exact absurd rfl (hextra '.' hmem)
  omega

theorem strictEmailMatch_dots (e : String) (h : strictEmailMatch e = true) :
    ((e.data.dropWhile (fun c => !(c = '@'))).tail).count '.' = 1 := by
  rw [strictEmailMatch, Bool.or_eq_true] at h
  rcases h with h | h
  · have := count_dot_after_at e.data [] h (by simp)
    simpa using this
  · rcases List.eq_nil_or_concat e.data with hnil | ⟨init, last, hconcat⟩
    · rw [hnil] at h
      simp at h
    · rw [List.concat_eq_append] at hconcat
      rw [hconcat, List.getLast?_concat, List.dropLast_concat] at h
      have hand := (Bool.and_eq_true _ _).mp h
      have hlast : last = '\n' := by simpa using hand.1
      rw [hconcat, hlast]
      exact count_dot_after_at init ['\n'] hand.2 (by decide)

/-! ### Claim theorems -/

/-- C1: the spec's Scenario A claims that on the markup
`"Contact us at Info@Shop.com or call +91 98765 43210"` the contact
extractor returns emails `{"info@shop.com"}` and phones `["9876543210"]`.
The code disagrees on the phones: the phone regex matches the whole
`"+91 98765 43210"`, `clean_phones` strips it to the 12-digit string
`"919876543210"`, and the `len(digits) == 10` check rejects it, so the
extractor returns no phones at all.  This theorem evaluates the embedded
code at that exact input. -/
theorem c1_scenario_a :
    extract_contact_info "Contact us at Info@Shop.com or call +91 98765 43210" 3 =
      (["info@shop.com"], []) := by decide

/-- C2 (counterexample): the claim draws the labels from a taxonomy
containing `"Fragrances"`, but on a document whose description is
`"perfume"` the code returns the label `"Fragnances"` (as spelled in
`CATEGORY_KEYWORDS`), which is not in the claimed taxonomy. -/
theorem c2_counterexample :
    extract_category ⟨some (some "perfume"), none, none⟩ = "Fragnances" ∧
      "Fragnances" ∉ claimedTaxonomy := by decide

/-- C2 (amended): the classifier returns exactly one label drawn from the
code's taxonomy (with `"Fragnances"` spelled as in the source): it is the
first category in `CATEGORY_KEYWORDS` order with a keyword occurring as a
substring of the lower-cased source text, and `"Other"` when no keyword
of any category matches. -/
theorem c2_taxonomy (soup : Soup) :
    extract_category soup ∈ CATEGORY_KEYWORDS.map Prod.fst ∧
    ((∀ p ∈ CATEGORY_KEYWORDS, ∀ kw ∈ p.2,
        kwInText kw (category_source_text soup) = false) →
      extract_category soup = "Other") ∧
    (∀ i : Nat, ∀ hi : i < CATEGORY_KEYWORDS.length,
      (∃ kw ∈ (CATEGORY_KEYWORDS.get ⟨i, hi⟩).2,
          kwInText kw (category_source_text soup) = true) →
      (∀ j : Nat, ∀ hj : j < i, ∀ kw ∈ (CATEGORY_KEYWORDS.get ⟨j, Nat.lt_trans hj hi⟩).2,
          kwInText kw (category_source_text soup) = false) →
      extract_category soup = (CATEGORY_KEYWORDS.get ⟨i, hi⟩).1) := by
  refine ⟨?_, ?_, ?_⟩
  · rw [extract_category, category_of_text]
    cases hf : CATEGORY_KEYWORDS.find?
        (fun p => p.2.any (fun kw => kwInText kw (category_source_text soup))) with
    | none =>
      show "Other" ∈ CATEGORY_KEYWORDS.map Prod.fst
      decide
    | some p =>
      exact List.mem_map_of_mem Prod.fst (List.mem_of_find?_eq_some hf)
  · intro hall
    rw [extract_category, category_of_text]
    have hnone : CATEGORY_KEYWORDS.find?
        (fun p => p.2.any (fun kw => kwInText kw (category_source_text soup))) = none := by
      rw [List.find?_eq_none]
      intro p hp hcontra
      obtain ⟨kw, hkw, htrue⟩ := List.any_eq_true.mp hcontra
      rw [hall p hp kw hkw] at htrue
      exact absurd htrue (by decide)
    rw [hnone]
  · intro i hi hex hmin
    rw [extract_category, category_of_text]
    have hp : (fun p => p.2.any (fun kw => kwInText kw (category_source_text soup)))
        (CATEGORY_KEYWORDS.get ⟨i, hi⟩) = true := List.any_eq_true.mpr hex
    have hm : ∀ j (hj : j < i),
        (fun p => p.2.any (fun kw => kwInText kw (category_source_text soup)))
          (CATEGORY_KEYWORDS.get ⟨j, Nat.lt_trans hj hi⟩) = false := by
      intro j hj
      exact List.any_eq_false.mpr (fun kw hkw => by rw [hmin j hj kw hkw]; simp)
    rw [find?_of_first _ _ i hi hp hm]

/-- C2 (witness): on the spec's Scenario B description the classifier
picks `"Hair Care"`, the second taxonomy entry, via the amended theorem. -/
theorem c2_witness :
    extract_category ⟨some (some "Buy the best shampoo and conditioner"), none, none⟩ =
      "Hair Care" :=
  (c2_taxonomy ⟨some (some "Buy the best shampoo and conditioner"), none, none⟩).2.2
    1 (by decide) (by decide) (by decide)

/-- C3 (counterexample): the claim says a `<meta name="description">` tag
without usable content falls back to `og:description` and then the title.
On a document with a contentless description tag, og:description
`"Shampoo"` and title `"Laptop"`, the code classifies from the title
(`"Electronics"`), while the claimed priority would classify from
og:description (`"Hair Care"`). -/
theorem c3_counterexample :
    extract_category ⟨some none, some (some "Shampoo"), some (some "Laptop")⟩ =
        "Electronics" ∧
      category_of_text
          (claimSourceText ⟨some none, some (some "Shampoo"), some (some "Laptop")⟩) =
        "Hair Care" ∧
      ("Electronics" : String) ≠ "Hair Care" := by decide

/-- C3 (amended): the classifier's source text follows the code's
priority: the probed tag is the `<meta name="description">` tag whenever
that tag exists at all, else the `og:description` tag; only a probed tag
with non-empty content supplies the text (lower-cased), and otherwise —
including a description tag without usable content — the classifier falls
back directly to the non-empty title string, else the empty string. -/
theorem c3_source_text (soup : Soup) :
    extract_category soup = category_of_text (amendedSourceText soup) := by
  have hst : category_source_text soup = amendedSourceText soup := by
    rcases soup with ⟨md, og, ti⟩
    rcases md with _ | md1
    · rcases og with _ | og1
      · simp [category_source_text, amendedSourceText, pyOrTag, usableContent]
      · rcases og1 with _ | c
        · simp [category_source_text, amendedSourceText, pyOrTag, usableContent]
        · by_cases hc : c.isEmpty <;>
            simp [category_source_text, amendedSourceText, pyOrTag, usableContent, hc]
    · rcases md1 with _ | c
      · simp [category_source_text, amendedSourceText, pyOrTag, usableContent]
      · by_cases hc : c.isEmpty <;>
          simp [category_source_text, amendedSourceText, pyOrTag, usableContent, hc]
  show category_of_text (category_source_text soup) = _
  rw [hst]

/-- C4: the page resolver is total.  On any internal failure (modelled by
the primary fetch outcome being an error) it returns a record whose
e-mail and phone fields are empty and whose category field embeds the
error after `"Failed to fetch: "`; on success it returns the extracted
facts joined as comma-separated strings together with the primary page's
category. -/
theorem c4_resolver_total (url e html : String) (soup : Soup)
    (contactFetch : Except String String) (max_phones : Nat) :
    scrape_website url (Except.error e) soup contactFetch max_phones =
      ⟨url, "", "", "Failed to fetch: " ++ e⟩ ∧
    ∃ es ps : List String,
      scrape_website url (Except.ok html) soup contactFetch max_phones =
        ⟨url, String.intercalate ", " es, String.intercalate ", " ps,
          extract_category soup⟩ := by
  refine ⟨rfl, ?_⟩
  simp only [scrape_website]
  by_cases hemp : (extract_contact_info html max_phones).1.isEmpty = true
  · rw [if_pos hemp]
    exact ⟨_, _, rfl⟩
  · rw [if_neg hemp]
    exact ⟨_, _, rfl⟩

/-- C5: the `/contact` fallback only fills fields still empty after the
primary extraction: a non-empty primary e-mail list fixes both fields
(the fallback is not even attempted), and a non-empty primary phone list
is never overridden, whatever the contact page yields. -/
theorem c5_fallback_frame (url html : String) (soup : Soup)
    (contactFetch : Except String String) (max_phones : Nat) :
    ((extract_contact_info html max_phones).1 ≠ [] →
      (scrape_website url (Except.ok html) soup contactFetch max_phones).emails =
          String.intercalate ", " (extract_contact_info html max_phones).1 ∧
        (scrape_website url (Except.ok html) soup contactFetch max_phones).phoneNumbers =
          String.intercalate ", " (extract_contact_info html max_phones).2) ∧
    ((extract_contact_info html max_phones).2 ≠ [] →
      (scrape_website url (Except.ok html) soup contactFetch max_phones).phoneNumbers =
        String.intercalate ", " (extract_contact_info html max_phones).2) := by
  constructor
  · intro hne
    have hemp : ¬(extract_contact_info html max_phones).1.isEmpty = true := by
      simpa [List.isEmpty_iff] using hne
    simp only [scrape_website]
    rw [if_neg hemp]
    exact ⟨rfl, rfl⟩
  · intro hne2
    by_cases hemp : (extract_contact_info html max_phones).1.isEmpty = true
    · simp only [scrape_website]
      rw [if_pos hemp]
      show String.intercalate ", "
          (pyOrList (extract_contact_info html max_phones).2
            (scrape_contact_page contactFetch max_phones).2) = _
      rw [pyOrList, if_neg (by simpa [List.isEmpty_iff] using hne2)]
    · simp only [scrape_website]
      rw [if_neg hemp]

/-- C5 (witness): a primary page yielding both an e-mail and a phone keeps
both fields even though the contact page offers different ones. -/
theorem c5_witness :
    (scrape_website "https://u.example" (Except.ok "Mail a@b.com call 9876543210")
        ⟨none, none, none⟩ (Except.ok "z@q.com 7000000000") 3).emails = "a@b.com" ∧
    (scrape_website "https://u.example" (Except.ok "Mail a@b.com call 9876543210")
        ⟨none, none, none⟩ (Except.ok "z@q.com 7000000000") 3).phoneNumbers =
      "9876543210" := by
  have h := c5_fallback_frame "https://u.example" "Mail a@b.com call 9876543210"
    ⟨none, none, none⟩ (Except.ok "z@q.com 7000000000") 3
  obtain ⟨he, hp⟩ := h.1 (by decide)
  exact ⟨he.trans (by decide), hp.trans (by decide)⟩

/-- Unfolding of the phone side of `extract_contact_info`. -/
theorem extract_phones_eq (html : String) (max_phones : Nat) :
    (extract_contact_info html max_phones).2 =
      (dedupSeen [] (validPhonesOf (phoneCandidates html))).take max_phones := rfl

/-- The code's first-digit check exposed as an explicit head digit. -/
theorem firstDigitOk_shape (p : String) (h : firstDigitOk p = true) :
    ∃ c cs, p.data = c :: cs ∧ (c = '6' ∨ c = '7' ∨ c = '8' ∨ c = '9') := by
  rw [firstDigitOk] at h
  split at h
  next c cs heq =>
    refine ⟨c, cs, heq, ?_⟩
    have h2 : ((c = '6' ∨ c = '7') ∨ c = '8') ∨ c = '9' := by
      simpa [Bool.or_eq_true, decide_eq_true_eq] using h
    tauto
  next => exact absurd h (by decide)

/-- C6: every extracted phone is a string of exactly ten digits whose
first digit is 6, 7, 8 or 9; the list has no duplicates, its length is at
most `max_phones`, and the surviving phones are ordered by the first
occurrence of their normalized form among the page's phone candidates. -/
theorem c6_phone_invariants (html : String) (max_phones : Nat) :
    (∀ p ∈ (extract_contact_info html max_phones).2,
      p.length = 10 ∧ p.data.all Char.isDigit = true ∧
        ∃ c cs, p.data = c :: cs ∧ (c = '6' ∨ c = '7' ∨ c = '8' ∨ c = '9')) ∧
    (extract_contact_info html max_phones).2.Nodup ∧
    (extract_contact_info html max_phones).2.length ≤ max_phones ∧
    (extract_contact_info html max_phones).2.Pairwise
      (fun a b => (validPhonesOf (phoneCandidates html)).indexOf a <
        (validPhonesOf (phoneCandidates html)).indexOf b) := by
  refine ⟨?_, ?_, ?_, ?_⟩
  · intro p hp
    rw [extract_phones_eq] at hp
    have h1 := List.take_subset _ _ hp
    have h2 := ((mem_dedupSeen _ _ p).mp h1).1
    obtain ⟨hlen, hdig, hfirst⟩ := mem_validPhonesOf _ p h2
    exact ⟨hlen, hdig, firstDigitOk_shape p hfirst⟩
  · rw [extract_phones_eq]
    exact List.Nodup.sublist (List.take_sublist _ _) (nodup_dedupSeen _ _)
  · rw [extract_phones_eq]
    exact List.length_take_le _ _
  · rw [extract_phones_eq]
    exact List.Pairwise.sublist (List.take_sublist _ _) (pairwise_indexOf_dedupSeen _ _)

/-- C6 (witness): on a page repeating the same number the extractor keeps
one copy, a ten-digit string. -/
theorem c6_witness :
    "9876543210" ∈ (extract_contact_info "call 9876543210 or 9876543210" 3).2 ∧
    ("9876543210" : String).length = 10 :=
  ⟨by decide,
    ((c6_phone_invariants "call 9876543210 or 9876543210" 3).1 "9876543210" (by decide)).1⟩

/-- Unfolding of the e-mail side of `extract_contact_info`. -/
theorem extract_emails_eq (html : String) (max_phones : Nat) :
    (extract_contact_info html max_phones).1 =
      dedupSeen [] (validEmailsOf (emailCandidates html)) := rfl

/-- C7: every extracted e-mail contains no ASCII uppercase letter,
contains a literal `@`, and ends in none of the static-asset extensions;
the e-mail list contains no duplicates. -/
theorem c7_email_invariants (html : String) (max_phones : Nat) :
    (∀ e ∈ (extract_contact_info html max_phones).1,
      (∀ c ∈ e.data, c ∉ asciiUppercase) ∧ containsChar e '@' = true ∧
        (∀ ext ∈ assetExts, endsWithStr e ext = false)) ∧
    (extract_contact_info html max_phones).1.Nodup := by
  constructor
  · intro e he
    rw [extract_emails_eq] at he
    have h2 := ((mem_dedupSeen _ _ e).mp he).1
    obtain ⟨⟨src, rfl⟩, hext, hat, _⟩ := mem_validEmailsOf _ e h2
    exact ⟨fun c hc => lowerStr_not_upper src c hc, hat, hext⟩
  · rw [extract_emails_eq]
    exact nodup_dedupSeen _ _

/-- C7 (witness): the mixed-case candidate `A@B.com` survives as the
lower-cased `a@b.com`, which indeed carries an `@`. -/
theorem c7_witness :
    "a@b.com" ∈ (extract_contact_info "Reach A@B.com" 3).1 ∧
    containsChar "a@b.com" '@' = true :=
  ⟨by decide,
    ((c7_email_invariants "Reach A@B.com" 3).1 "a@b.com" (by decide)).2.1⟩

/-- C8: the website resolver returns the first search result's truthy
`href`-or-`link` field when one is carried, and the not-found marker
(`none`, never an exception) when the collaborator raises or returns zero
results. -/
theorem c8_search_resolver (err h : String) (r : SearchResult) (rs : List SearchResult) :
    get_website_from_search (Except.error err) = none ∧
    get_website_from_search (Except.ok []) = none ∧
    (truthyLink r = some h →
      get_website_from_search (Except.ok (r :: rs)) = some h) := by
  refine ⟨rfl, rfl, ?_⟩
  intro ht
  rw [truthyLink] at ht
  show searchLoop (r :: rs) = some h
  rw [searchLoop]
  cases hp : pyOrStr r.href r.link with
  | none =>
    rw [hp] at ht
    exact absurd ht (by simp)
  | some s =>
    rw [hp] at ht
    dsimp only at ht ⊢
    by_cases hs : s.isEmpty = true
    · rw [if_pos hs] at ht
      exact absurd ht (by simp)
    · rw [if_neg hs] at ht
      rw [if_neg hs]
      exact ht

/-- C8 (witness): a single result carrying an `href` is returned as-is. -/
theorem c8_witness :
    get_website_from_search (Except.ok [⟨some "https://acme.example", none⟩]) =
      some "https://acme.example" :=
  (c8_search_resolver "boom" "https://acme.example" ⟨some "https://acme.example", none⟩
    []).2.2 (by decide)

/-- C9 (counterexample): the claim says normalization returns the input
unchanged whenever a scheme is present, but `ftp://example.com` has a
scheme and is still rewritten (the code only recognises the two HTTP
prefixes). -/
theorem c9_counterexample :
    hasScheme "ftp://example.com" = true ∧
      normalize "ftp://example.com" ≠ "ftp://example.com" := by decide

/-- A list extended on the right still starts with itself. -/
theorem startsWithList_append (t s : List Char) : startsWithList (t ++ s) t = true := by
  induction t with
  | nil => simp [startsWithList]
  | cons c cs ih =>
    rw [List.cons_append]
    simp only [startsWithList]
    simp [ih]

/-- C9 (amended): normalization prepends `https://` exactly when the input
does not start with `http://` or `https://` (so a URL with any other
scheme is also rewritten), and in all cases the result starts with
`http://` or `https://`. -/
theorem c9_normalize (u : String) :
    ((startsWithStr u "http://" = true ∨ startsWithStr u "https://" = true) →
      normalize u = u) ∧
    ((startsWithStr u "http://" = false ∧ startsWithStr u "https://" = false) →
      normalize u = "https://" ++ u) ∧
    (startsWithStr (normalize u) "http://" = true ∨
      startsWithStr (normalize u) "https://" = true) := by
  refine ⟨?_, ?_, ?_⟩
  · intro hor
    rw [normalize, if_pos (by rw [Bool.or_eq_true]; exact hor)]
  · intro hand
    rw [normalize, if_neg (by rw [Bool.or_eq_true]; simp [hand.1, hand.2])]
  · by_cases hc : (startsWithStr u "http://" || startsWithStr u "https://") = true
    · rw [normalize, if_pos hc]
      rwa [Bool.or_eq_true] at hc
    · rw [normalize, if_neg hc]
      right
      rw [startsWithStr, String.data_append]
      exact startsWithList_append _ _

/-- C9 (witness): a bare hostname gets the `https://` prefix. -/
theorem c9_witness :
    normalize "example.com" = "https://example.com" := by
  have h := (c9_normalize "example.com").2.1 (by exact ⟨by decide, by decide⟩)
  exact h.trans (by decide)

/-- C10: the strict validation regex only accepts domains of the shape
`label.tld`, so every e-mail surviving cleanup has exactly one dot after
its `@`; in particular candidates with multi-label domains such as
`user@mail.example.com` are discarded. -/
theorem c10_domain_single_dot (html : String) (max_phones : Nat) :
    ∀ e ∈ (extract_contact_info html max_phones).1,
      ((e.data.dropWhile (fun c => !(c = '@'))).tail).count '.' = 1 := by
  intro e he
  rw [extract_emails_eq] at he
  have h2 := ((mem_dedupSeen _ _ e).mp he).1
  exact strictEmailMatch_dots e (mem_validEmailsOf _ e h2).2.2.2

/-- C10 (witness): the surviving e-mail `a@b.co` has exactly one dot after
its `@` (while `user@mail.example.com` on the same page is discarded). -/
theorem c10_witness :
    "a@b.co" ∈ (extract_contact_info "user@mail.example.com a@b.co" 3).1 ∧
    ((("a@b.co" : String).data.dropWhile (fun c => !(c = '@'))).tail).count '.' = 1 :=
  ⟨by decide,
    c10_domain_single_dot "user@mail.example.com a@b.co" 3 "a@b.co" (by decide)⟩

end WebScrapper
